import Mathlib

/-!
Verification of the request aggregator of the herpill dashboard
(src/app/(dashboard)/dashboard/our-service/page.tsx).

The page fetches a flat list of service requests (POP or COCP), filters
them by an approval-status tab, groups the filtered requests by user,
paginates the groups, and renders per-request actions.  All of that logic
is pure, synchronous array processing; it is embedded below with TypeScript
strings kept as `String`, optional fields as `Option`, and the JS `Map`
(which preserves insertion order) as an association list.
-/

namespace HerPill

/-- Approval status string constants, from `enum ServiceStatus` in the page. -/
def ServiceStatus.Pending : String := "pending"

/-- Constant `ServiceStatus.Accept = "accept"` in the page source. -/
def ServiceStatus.Accept : String := "accept"

/-- Constant `ServiceStatus.Decline = "decline"` in the page source. -/
def ServiceStatus.Decline : String := "decline"

/-- Delivery status string constant `DeliveryStatus.Done` from `@/types`. -/
def DeliveryStatus.Done : String := "done"

/-- Delivery status string constant `DeliveryStatus.Started` from `@/types`. -/
def DeliveryStatus.Started : String := "started"

/-- The UI status tabs, from `enum TabStatus` in the page. -/
inductive TabStatus where
  | Pending
  | Accept
  | Decline
  | Done
deriving DecidableEq, Repr

/-- The `Partial<User>` user summary attached to a request.  Every field is
optional (the page only ever reads them behind `||` fallbacks). -/
structure User where
  _id : Option String
  firstName : Option String
  surname : Option String
  email : Option String
  phoneNumber : Option String
  avatar : Option String
deriving DecidableEq, Repr

/-- A request's `userId` field is `User | string`: either an embedded user
object or a bare identifier string. -/
inductive UserRef where
  | embedded (u : User)
  | ref (id : String)
deriving DecidableEq, Repr

/-- A POP/COCP service request (the fields of `Pop | Cocp` the page reads).
`deliveryStatus` is optional in the source (a missing value renders as
"Pending"), hence `Option String`. -/
structure Request where
  _id : String
  userId : UserRef
  status : String
  deliveryStatus : Option String
  createdAt : String
deriving DecidableEq, Repr

/-- The body of the `allRequests.filter` callback: the `switch` on
`activeStatusTab` at lines 175-194 of the page. -/
def filterPred (tab : TabStatus) (req : Request) : Bool :=
  match tab with
  | TabStatus.Pending => req.status == ServiceStatus.Pending
  | TabStatus.Decline => req.status == ServiceStatus.Decline
  | TabStatus.Accept =>
      req.status == ServiceStatus.Accept &&
      req.deliveryStatus != some DeliveryStatus.Done
  | TabStatus.Done =>
      req.status == ServiceStatus.Accept &&
      req.deliveryStatus == some DeliveryStatus.Done

/-- Source: `filteredRequests = allRequests.filter (req => switch ...)`. -/
def filteredRequests (tab : TabStatus) (allRequests : List Request) : List Request :=
  allRequests.filter (filterPred tab)

/-- Function `getUser` (page lines 197-199): if the reference is an object,
return it; otherwise return a stub whose only field is `_id` set to the
bare identifier string. -/
def getUser : UserRef → User
  | UserRef.embedded u => u
  | UserRef.ref s =>
      { _id := some s, firstName := none, surname := none, email := none,
        phoneNumber := none, avatar := none }

/-- JavaScript `a || b` for an optional string `a`: the default wins when
`a` is `undefined` or the empty string (both falsy). -/
def jsOrString (a : Option String) (b : String) : String :=
  match a with
  | none => b
  | some s => if s = "" then b else s

/-- Source: `const userId = user._id || "unknown"` — the grouping key of a
request. -/
def userKey (req : Request) : String :=
  jsOrString (getUser req.userId)._id "unknown"

/-- One entry of the grouped view: `interface GroupedRequests` at page
lines 54-57. -/
structure GroupedRequests where
  user : User
  requests : List Request
deriving DecidableEq, Repr

/-- One `Map` update of the grouping loop (page lines 209-212): if the key
is absent, add entry `(k, user, [req])` at the end (JS `Map` preserves
insertion order); otherwise push `req` onto that entry's request list. -/
def insertReq (k : String) (user : User) (req : Request) :
    List (String × GroupedRequests) → List (String × GroupedRequests)
  | [] => [(k, { user := user, requests := [req] })]
  | (k', g) :: rest =>
      if k' = k then
        (k', { user := g.user, requests := g.requests ++ [req] }) :: rest
      else
        (k', g) :: insertReq k user req rest

/-- The body of `filteredRequests.forEach` at page lines 205-213. -/
def groupStep (groups : List (String × GroupedRequests)) (req : Request) :
    List (String × GroupedRequests) :=
  insertReq (userKey req) (getUser req.userId) req groups

/-- Source `groupedRequests` (page lines 202-216) with the keys kept alongside the
values: fold the filtered list into an insertion-ordered map. The page's
`Array.from(groups.values())` is `(groupRequests reqs).map Prod.snd`. -/
def groupRequests (reqs : List Request) : List (String × GroupedRequests) :=
  reqs.foldl groupStep []

/-- Lookup in the insertion-ordered map. -/
def lookupG (k : String) : List (String × GroupedRequests) → Option GroupedRequests
  | [] => none
  | (k', g) :: rest => if k' = k then some g else lookupG k rest

/-- Specification-side description of the group keys: the distinct resolved
user identifiers of the sequence, in first-occurrence order ("creating the
group on first sight; groups preserve first-seen order"). -/
def firstOccKeys (reqs : List Request) : List String :=
  reqs.foldl (fun ks r => if userKey r ∈ ks then ks else ks ++ [userKey r]) []

/-- Specification-side description of one group: the requests of the
sequence with the given key, in source order, with the user summary
resolved from the first such request; `none` when the key never occurs. -/
def groupOfKey (reqs : List Request) (k : String) : Option GroupedRequests :=
  match reqs.filter (fun r => userKey r = k) with
  | [] => none
  | r0 :: rs => some { user := getUser r0.userId, requests := r0 :: rs }

/-- Specification-side description of the whole grouping, built from the
spec's words: one group per distinct resolved identifier, in
first-occurrence order. (The `getD` default is unreachable: every key in
`firstOccKeys reqs` occurs in `reqs`.) -/
def specGroupRequests (reqs : List Request) : List (String × GroupedRequests) :=
  (firstOccKeys reqs).map fun k =>
    (k, (groupOfKey reqs k).getD { user := getUser (UserRef.ref k), requests := [] })

/-- Function `getTabCount` (page lines 238-261): per-tab badge count, computed by
filtering the full unfiltered request list. -/
def getTabCount (status : TabStatus) (allRequests : List Request) : Nat :=
  match status with
  | TabStatus.Pending =>
      (allRequests.filter fun r => r.status == ServiceStatus.Pending).length
  | TabStatus.Decline =>
      (allRequests.filter fun r => r.status == ServiceStatus.Decline).length
  | TabStatus.Accept =>
      (allRequests.filter fun r =>
        r.status == ServiceStatus.Accept &&
        r.deliveryStatus != some DeliveryStatus.Done).length
  | TabStatus.Done =>
      (allRequests.filter fun r =>
        r.status == ServiceStatus.Accept &&
        r.deliveryStatus == some DeliveryStatus.Done).length

/-- The sum of the four badge counts shown on the status tab row. -/
def tabCountSum (allRequests : List Request) : Nat :=
  getTabCount TabStatus.Pending allRequests +
  getTabCount TabStatus.Accept allRequests +
  getTabCount TabStatus.Decline allRequests +
  getTabCount TabStatus.Done allRequests

/-- Source: `const localLimit = 10` — the fixed page size of the grouped
view. -/
def localLimit : Nat := 10

/-- Source: `Math.ceil(totalGroups / localLimit)` (page line 223), with the real
division embedded exactly as ℚ division. -/
def totalPage (totalGroups limit : Nat) : Nat :=
  Nat.ceil ((totalGroups : ℚ) / (limit : ℚ))

/-- Source: `groupedRequests.slice(startIndex, endIndex)` where
`startIndex = (currentPage - 1) * limit` and `endIndex = startIndex + limit`
(page lines 224-227). -/
def groupsToDisplay (groups : List GroupedRequests) (currentPage limit : Nat) :
    List GroupedRequests :=
  (groups.drop ((currentPage - 1) * limit)).take limit

/-- The two service categories. -/
inductive ServiceTab where
  | POP
  | COCP
deriving DecidableEq, Repr

/-- The page-level React state the handlers touch: active service tab,
active status tab, and a page number per service category. -/
structure PageState where
  activeServiceTab : ServiceTab
  activeStatusTab : TabStatus
  popPage : Nat
  cocpPage : Nat
deriving DecidableEq, Repr

/-- Handler `handleServiceTabChange` (page lines 105-109): switch category and set
both page numbers to 1. -/
def handleServiceTabChange (s : PageState) (tab : ServiceTab) : PageState :=
  { s with activeServiceTab := tab, popPage := 1, cocpPage := 1 }

/-- Handler `handleStatusTabChange` (page lines 111-118): switch status tab and set
the active category's page number to 1. -/
def handleStatusTabChange (s : PageState) (status : TabStatus) : PageState :=
  match s.activeServiceTab with
  | ServiceTab.POP => { s with activeStatusTab := status, popPage := 1 }
  | ServiceTab.COCP => { s with activeStatusTab := status, cocpPage := 1 }

/-- Source: `currentPage = activeServiceTab === "POP" ? popPage : cocpPage`
(page line 219). -/
def currentPage (s : PageState) : Nat :=
  match s.activeServiceTab with
  | ServiceTab.POP => s.popPage
  | ServiceTab.COCP => s.cocpPage

/-- The per-request action buttons the table row can render. -/
inductive RowAction where
  | details
  | accept
  | decline
  | delete
deriving DecidableEq, Repr

/-- The action cell of a request row (page lines 456-502): the pending
branch renders Details/Accept/Decline; the accept-or-decline branch renders
Details/Delete. -/
def actionsFor (status : String) : List RowAction :=
  (if status == ServiceStatus.Pending then
    [RowAction.details, RowAction.accept, RowAction.decline]
  else []) ++
  (if status == ServiceStatus.Accept || status == ServiceStatus.Decline then
    [RowAction.details, RowAction.delete]
  else [])

/-- The result object of the confirmation dialog (`Swal.fire(...)`). -/
structure SwalResult where
  isConfirmed : Bool
deriving DecidableEq, Repr

/-- Outcome of `handleDelete`. -/
inductive DeleteOutcome where
  | dispatched (id : String)
  | cancelled
deriving DecidableEq, Repr

/-- Handler `handleDelete` (page lines 141-163): the delete mutation for `id` is
dispatched only inside `if result.isConfirmed`, after the confirmation
dialog resolves. -/
def handleDelete (id : String) (result : SwalResult) : DeleteOutcome :=
  if result.isConfirmed then DeleteOutcome.dispatched id
  else DeleteOutcome.cancelled

/-- What the table area renders. -/
inductive ViewState where
  | loading
  | error
  | empty
  | table (groups : List GroupedRequests)
deriving DecidableEq, Repr

/-- The render branch chain at page lines 351-363: loading, then error,
then the "no requests found" empty state when `groupsToDisplay` is empty,
else the grouped table. -/
def renderState (isLoading isError : Bool) (groupsToShow : List GroupedRequests) :
    ViewState :=
  if isLoading then ViewState.loading
  else if isError then ViewState.error
  else if groupsToShow.length == 0 then ViewState.empty
  else ViewState.table groupsToShow

/-- A concrete group used to instantiate the scenario theorems. -/
def sampleGroup : GroupedRequests :=
  { user :=
      { _id := some "u1", firstName := none, surname := none, email := none,
        phoneNumber := none, avatar := none },
    requests := [] }

/-- A concrete request whose approval status is none of the three known
values, used to instantiate the scenario theorems. -/
def strayRequest : Request :=
  { _id := "r1", userId := UserRef.ref "u1", status := "cancelled",
    deliveryStatus := none, createdAt := "2024-01-01T00:00:00Z" }

end HerPill

namespace HerPill

/-- Looking up the inserted key: the entry's request list is extended, or a
fresh entry is created from the supplied user summary. -/
lemma lookupG_insertReq_self (k : String) (u : User) (req : Request) :
    ∀ G : List (String × GroupedRequests),
      lookupG k (insertReq k u req G) =
        match lookupG k G with
        | some g => some { user := g.user, requests := g.requests ++ [req] }
        | none => some { user := u, requests := [req] }
  | [] => by simp [insertReq, lookupG]
  | (k', g) :: rest => by
      by_cases h : k' = k
      · simp [insertReq, lookupG, h]
      · simp only [insertReq, lookupG, if_neg h]
        exact lookupG_insertReq_self k u req rest

/-- Looking up any other key is unchanged by an insertion. -/
lemma lookupG_insertReq_ne (k k' : String) (u : User) (req : Request)
    (hne : k' ≠ k) :
    ∀ G : List (String × GroupedRequests),
      lookupG k' (insertReq k u req G) = lookupG k' G
  | [] => by
      have h1 : ¬ k = k' := fun h => hne h.symm
      simp [insertReq, lookupG, h1]
  | (k'', g) :: rest => by
      have h1 : ¬ k = k' := fun h => hne h.symm
      by_cases h : k'' = k
      · subst h
        simp [insertReq, lookupG, h1]
      · simp only [insertReq, if_neg h, lookupG]
        by_cases h2 : k'' = k'
        · simp [h2]
        · simp only [if_neg h2]
          exact lookupG_insertReq_ne k k' u req hne rest

/-- Key list after an insertion: unchanged when present, else appended. -/
lemma keys_insertReq (k : String) (u : User) (req : Request) :
    ∀ G : List (String × GroupedRequests),
      (insertReq k u req G).map Prod.fst =
        if k ∈ G.map Prod.fst then G.map Prod.fst else G.map Prod.fst ++ [k]
  | [] => by simp [insertReq]
  | (k', g) :: rest => by
      by_cases h : k' = k
      · simp [insertReq, h]
      · simp only [insertReq, if_neg h, List.map_cons, keys_insertReq k u req rest]
        by_cases hk : k ∈ rest.map Prod.fst
        · simp [hk, Ne.symm h]
        · simp [hk, Ne.symm h]

/-- The key list of the grouping fold is the first-occurrence fold of the
request keys. -/
lemma keys_groupFold (reqs : List Request) (G : List (String × GroupedRequests)) :
    (reqs.foldl groupStep G).map Prod.fst =
      reqs.foldl (fun ks r => if userKey r ∈ ks then ks else ks ++ [userKey r])
        (G.map Prod.fst) := by
  induction reqs generalizing G with
  | nil => simp
  | cons r rest ih =>
      simp only [List.foldl_cons]
      rw [ih]
      congr 1
      simpa [groupStep] using keys_insertReq (userKey r) (getUser r.userId) r G

/-- The key list of `groupRequests` is exactly `firstOccKeys`. -/
lemma keys_groupRequests (reqs : List Request) :
    (groupRequests reqs).map Prod.fst = firstOccKeys reqs := by
  simpa [groupRequests, firstOccKeys] using keys_groupFold reqs []

/-- The lookup view of the grouping fold: the accumulator's entry for `k`
is extended by the requests of the suffix with key `k`, and a missing entry
becomes exactly the spec-side group of key `k`. -/
lemma lookupG_groupFold (reqs : List Request) (G : List (String × GroupedRequests))
    (k : String) :
    lookupG k (reqs.foldl groupStep G) =
      match lookupG k G with
      | some g =>
          some { user := g.user,
                 requests := g.requests ++ reqs.filter (fun r => userKey r = k) }
      | none => groupOfKey reqs k := by
  induction reqs generalizing G with
      | nil =>
          cases h : lookupG k G <;> simp [h, groupOfKey]
      | cons r rest ih =>
          simp only [List.foldl_cons]
          rw [ih]
          by_cases hk : userKey r = k
          · have hstep :
                lookupG k (groupStep G r) =
                  match lookupG k G with
                  | some g => some { user := g.user, requests := g.requests ++ [r] }
                  | none => some { user := getUser r.userId, requests := [r] } := by
              simpa [groupStep, hk] using
                lookupG_insertReq_self k (getUser r.userId) r G
            rw [hstep]
            cases h : lookupG k G with
            | some g => simp [List.filter_cons, hk]
            | none => simp [groupOfKey, List.filter_cons, hk]
          · have hstep : lookupG k (groupStep G r) = lookupG k G := by
              exact lookupG_insertReq_ne (userKey r) k (getUser r.userId) r
                (fun h => hk h.symm) G
            rw [hstep]
            cases h : lookupG k G with
            | some g => simp [List.filter_cons, hk]
            | none => simp [groupOfKey, List.filter_cons, hk]

/-- The lookup view of `groupRequests`: exactly the spec-side group. -/
lemma lookupG_groupRequests (reqs : List Request) (k : String) :
    lookupG k (groupRequests reqs) = groupOfKey reqs k := by
  simpa [groupRequests, lookupG] using lookupG_groupFold reqs [] k

/-- Membership in the first-occurrence fold. -/
lemma mem_firstOcc_foldl (reqs : List Request) (ks : List String) (k : String) :
    (k ∈ reqs.foldl
        (fun ks r => if userKey r ∈ ks then ks else ks ++ [userKey r]) ks) ↔
      k ∈ ks ∨ ∃ r ∈ reqs, userKey r = k := by
  induction reqs generalizing ks with
  | nil => simp
  | cons r rest ih =>
      simp only [List.foldl_cons]
      rw [ih]
      by_cases h : userKey r ∈ ks
      · rw [if_pos h]
        constructor
        · rintro (hk | ⟨r', hr', hkey⟩)
          · exact Or.inl hk
          · exact Or.inr ⟨r', List.mem_cons_of_mem r hr', hkey⟩
        · rintro (hk | ⟨r', hr', hkey⟩)
          · exact Or.inl hk
          · rcases List.mem_cons.mp hr' with h1 | h1
            · exact Or.inl (by rw [← hkey, h1]; exact h)
            · exact Or.inr ⟨r', h1, hkey⟩
      · rw [if_neg h]
        constructor
        · rintro (hk | ⟨r', hr', hkey⟩)
          · rcases List.mem_append.mp hk with h1 | h1
            · exact Or.inl h1
            · exact Or.inr ⟨r, List.mem_cons_self r rest,
                (List.mem_singleton.mp h1).symm⟩
          · exact Or.inr ⟨r', List.mem_cons_of_mem r hr', hkey⟩
        · rintro (hk | ⟨r', hr', hkey⟩)
          · exact Or.inl (List.mem_append.mpr (Or.inl hk))
          · rcases List.mem_cons.mp hr' with h1 | h1
            · exact Or.inl (List.mem_append.mpr (Or.inr (by simp [← hkey, h1])))
            · exact Or.inr ⟨r', h1, hkey⟩

/-- Membership in `firstOccKeys`: exactly the keys occurring in the list. -/
lemma mem_firstOccKeys (reqs : List Request) (k : String) :
    k ∈ firstOccKeys reqs ↔ ∃ r ∈ reqs, userKey r = k := by
  simpa [firstOccKeys] using mem_firstOcc_foldl reqs [] k

/-- The first-occurrence fold preserves distinctness of the key list. -/
lemma nodup_firstOcc_foldl (reqs : List Request) :
    ∀ ks : List String, ks.Nodup →
      (reqs.foldl
        (fun ks r => if userKey r ∈ ks then ks else ks ++ [userKey r]) ks).Nodup := by
  induction reqs with
  | nil => intro ks h; simpa
  | cons r rest ih =>
      intro ks h
      simp only [List.foldl_cons]
      by_cases hk : userKey r ∈ ks
      · rw [if_pos hk]; exact ih ks h
      · rw [if_neg hk]
        exact ih _ (by simp [List.nodup_append, h, hk])

/-- The keys of `firstOccKeys` are distinct. -/
lemma nodup_firstOccKeys (reqs : List Request) : (firstOccKeys reqs).Nodup :=
  nodup_firstOcc_foldl reqs [] List.nodup_nil

/-- A successful lookup is a member of the association list. -/
lemma mem_of_lookupG (k : String) (g : GroupedRequests) :
    ∀ G : List (String × GroupedRequests),
      lookupG k G = some g → (k, g) ∈ G
  | [], h => by simp [lookupG] at h
  | (k', g') :: rest, h => by
      by_cases hk : k' = k
      · subst hk
        simp [lookupG] at h
        simp [h]
      · simp only [lookupG, if_neg hk] at h
        exact List.mem_cons_of_mem _ (mem_of_lookupG k g rest h)

/-- In an association list with distinct keys, membership determines the
lookup. -/
lemma lookupG_of_mem (k : String) (g : GroupedRequests) :
    ∀ G : List (String × GroupedRequests),
      (k, g) ∈ G → (G.map Prod.fst).Nodup → lookupG k G = some g
  | [], h, _ => by simp at h
  | (k', g') :: rest, h, hnd => by
      rw [List.map_cons] at hnd
      obtain ⟨hnotin, hndrest⟩ := List.nodup_cons.mp hnd
      rcases List.mem_cons.mp h with h1 | h1
      · injection h1 with hk hg
        subst hk
        subst hg
        simp [lookupG]
      · have hk : k' ≠ k := by
          rintro rfl
          exact hnotin (List.mem_map.mpr ⟨(k', g), h1, rfl⟩)
        simp only [lookupG, if_neg hk]
        exact lookupG_of_mem k g rest h1 hndrest

/-- Two association lists with the same distinct key list and the same
lookups are equal. -/
lemma assoc_ext :
    ∀ (G₁ G₂ : List (String × GroupedRequests)),
      G₁.map Prod.fst = G₂.map Prod.fst →
      (G₁.map Prod.fst).Nodup →
      (∀ k, lookupG k G₁ = lookupG k G₂) → G₁ = G₂
  | [], [], _, _, _ => rfl
  | [], (k, g) :: _, hkeys, _, _ => by simp at hkeys
  | (k, g) :: _, [], hkeys, _, _ => by simp at hkeys
  | (k₁, g₁) :: rest₁, (k₂, g₂) :: rest₂, hkeys, hnd, hlook => by
      simp only [List.map_cons, List.cons.injEq] at hkeys
      obtain ⟨hk, hrest⟩ := hkeys
      subst hk
      have hg : g₁ = g₂ := by
        have := hlook k₁
        simpa [lookupG] using this
      subst hg
      rw [List.map_cons] at hnd
      obtain ⟨hk₁, hndrest⟩ := List.nodup_cons.mp hnd
      have htail : rest₁ = rest₂ := by
        refine assoc_ext rest₁ rest₂ hrest hndrest ?_
        intro k
        by_cases hkk : k = k₁
        · subst hkk
          have h1 : lookupG k rest₁ = none := by
            cases h : lookupG k rest₁ with
            | none => rfl
            | some g => exact absurd (List.mem_map.mpr
                ⟨(k, g), mem_of_lookupG k g rest₁ h, rfl⟩) hk₁
          have hk₂ : k ∉ rest₂.map Prod.fst := hrest ▸ hk₁
          have h2 : lookupG k rest₂ = none := by
            cases h : lookupG k rest₂ with
            | none => rfl
            | some g => exact absurd (List.mem_map.mpr
                ⟨(k, g), mem_of_lookupG k g rest₂ h, rfl⟩) hk₂
          rw [h1, h2]
        · have hkk' : ¬ k₁ = k := fun h => hkk h.symm
          have := hlook k
          simpa [lookupG, hkk'] using this
      rw [htail]

/-- Lookup in an association list built by pairing each key with a value. -/
lemma lookupG_map_assoc (f : String → GroupedRequests) :
    ∀ (ks : List String) (k : String),
      lookupG k (ks.map fun k' => (k', f k')) =
        if k ∈ ks then some (f k) else none
  | [], k => by simp [lookupG]
  | k' :: ks, k => by
      by_cases h : k' = k
      · subst h
        simp [lookupG]
      · have h' : ¬ k = k' := fun hh => h hh.symm
        simp only [List.map_cons, lookupG, if_neg h, lookupG_map_assoc f ks k,
          List.mem_cons]
        simp [h']

/-- A member of `groupRequests` holds exactly the requests of its key, in
source order, with the user summary resolved from the first of them. -/
lemma mem_groupRequests_spec (reqs : List Request) (k : String)
    (g : GroupedRequests) (hmem : (k, g) ∈ groupRequests reqs) :
    ∃ r0 rs, reqs.filter (fun r => userKey r = k) = r0 :: rs ∧
      g = { user := getUser r0.userId, requests := r0 :: rs } := by
  have hnd : ((groupRequests reqs).map Prod.fst).Nodup := by
    rw [keys_groupRequests]
    exact nodup_firstOccKeys reqs
  have hlook := lookupG_of_mem k g (groupRequests reqs) hmem hnd
  rw [lookupG_groupRequests] at hlook
  cases hf : reqs.filter (fun r => userKey r = k) with
  | nil =>
      simp [groupOfKey, hf] at hlook
  | cons r0 rs =>
      simp only [groupOfKey, hf] at hlook
      injection hlook with hlook
      exact ⟨r0, rs, rfl, hlook.symm⟩

/-- Every request of the sequence lands in the group of its own key. -/
lemma exists_group_of_mem (reqs : List Request) (r : Request) (hr : r ∈ reqs) :
    ∃ g, (userKey r, g) ∈ groupRequests reqs ∧ r ∈ g.requests := by
  have hrf : r ∈ reqs.filter (fun r' => userKey r' = userKey r) :=
    List.mem_filter.mpr ⟨hr, by simp⟩
  cases hf : reqs.filter (fun r' => userKey r' = userKey r) with
  | nil =>
      rw [hf] at hrf
      simp at hrf
  | cons r0 rs =>
      refine ⟨{ user := getUser r0.userId, requests := r0 :: rs }, ?_, ?_⟩
      · apply mem_of_lookupG
        rw [lookupG_groupRequests]
        simp only [groupOfKey, hf]
      · exact hf ▸ hrf

/-- C1: for every request list and every status tab, membership in the
filtered list is exactly: Pending ↔ approval status pending; Declined ↔
approval status declined; Accepted ↔ approval status accepted and delivery
status not done; DeliveryDone ↔ approval status accepted and delivery
status done. -/
theorem c1_filter_conditions (allRequests : List Request) (r : Request) :
    (r ∈ filteredRequests TabStatus.Pending allRequests ↔
      r ∈ allRequests ∧ r.status = ServiceStatus.Pending) ∧
    (r ∈ filteredRequests TabStatus.Decline allRequests ↔
      r ∈ allRequests ∧ r.status = ServiceStatus.Decline) ∧
    (r ∈ filteredRequests TabStatus.Accept allRequests ↔
      r ∈ allRequests ∧ r.status = ServiceStatus.Accept ∧
        r.deliveryStatus ≠ some DeliveryStatus.Done) ∧
    (r ∈ filteredRequests TabStatus.Done allRequests ↔
      r ∈ allRequests ∧ r.status = ServiceStatus.Accept ∧
        r.deliveryStatus = some DeliveryStatus.Done) := by
  simp [filteredRequests, filterPred, List.mem_filter, and_assoc]

/-- C4: for every request list, the Accepted and DeliveryDone filtered sets
are disjoint, and together they cover exactly the requests whose approval
status is accepted. -/
theorem c4_accept_done_partition (allRequests : List Request) (r : Request) :
    ¬ (r ∈ filteredRequests TabStatus.Accept allRequests ∧
        r ∈ filteredRequests TabStatus.Done allRequests) ∧
    (r ∈ filteredRequests TabStatus.Accept allRequests ∨
      r ∈ filteredRequests TabStatus.Done allRequests ↔
      r ∈ allRequests ∧ r.status = ServiceStatus.Accept) := by
  constructor
  · rintro ⟨hA, hD⟩
    simp [filteredRequests, filterPred, List.mem_filter] at hA hD
    exact hA.2.2 hD.2.2
  · constructor
    · rintro (hA | hD)
      · simp [filteredRequests, filterPred, List.mem_filter] at hA
        exact ⟨hA.1, hA.2.1⟩
      · simp [filteredRequests, filterPred, List.mem_filter] at hD
        exact ⟨hD.1, hD.2.1⟩
    · rintro ⟨hmem, hacc⟩
      by_cases hd : r.deliveryStatus = some DeliveryStatus.Done
      · right
        simp [filteredRequests, filterPred, List.mem_filter, hmem, hacc, hd]
      · left
        simp [filteredRequests, filterPred, List.mem_filter, hmem, hacc, hd]

/-- C2: grouping the filtered sequence matches the specification exactly —
one group per distinct resolved user identifier, created on first sight
with the user summary resolved from the first-seen request, groups in
first-occurrence order, and each group's requests in source order. -/
theorem c2_grouping_matches_spec (reqs : List Request) :
    groupRequests reqs = specGroupRequests reqs := by
  refine assoc_ext _ _ ?_ ?_ ?_
  · rw [keys_groupRequests]
    simp only [specGroupRequests, List.map_map]
    exact (List.map_id' (firstOccKeys reqs)).symm
  · rw [keys_groupRequests]
    exact nodup_firstOccKeys reqs
  · intro k
    rw [lookupG_groupRequests]
    unfold specGroupRequests
    rw [lookupG_map_assoc]
    by_cases hk : k ∈ firstOccKeys reqs
    · rw [if_pos hk]
      obtain ⟨r, hr, hkey⟩ := (mem_firstOccKeys reqs k).mp hk
      have hrf : r ∈ reqs.filter (fun r' => userKey r' = k) :=
        List.mem_filter.mpr ⟨hr, by simp [hkey]⟩
      cases hf : reqs.filter (fun r' => userKey r' = k) with
      | nil =>
          rw [hf] at hrf
          simp at hrf
      | cons r0 rs => simp [groupOfKey, hf]
    · rw [if_neg hk]
      have hnil : reqs.filter (fun r' => userKey r' = k) = [] := by
        rw [List.filter_eq_nil_iff]
        intro a ha
        simpa using fun hkey => hk ((mem_firstOccKeys reqs k).mpr ⟨a, ha, hkey⟩)
      simp [groupOfKey, hnil]

/-- C6: grouping never drops a request — every request of the filtered
sequence lies in exactly one group — and a request whose user reference
yields no identifier (no `_id`, or an empty one) lands in the group keyed
by the literal string "unknown". -/
theorem c6_no_request_dropped (reqs : List Request) (r : Request)
    (hr : r ∈ reqs) :
    (∃ g, (userKey r, g) ∈ groupRequests reqs ∧ r ∈ g.requests) ∧
    (∀ k g k' g', (k, g) ∈ groupRequests reqs →
      (k', g') ∈ groupRequests reqs →
      r ∈ g.requests → r ∈ g'.requests → k = k' ∧ g = g') ∧
    ((getUser r.userId)._id = none ∨ (getUser r.userId)._id = some "" →
      ∃ g, ("unknown", g) ∈ groupRequests reqs ∧ r ∈ g.requests) := by
  have hkey_of_mem : ∀ k g, (k, g) ∈ groupRequests reqs → r ∈ g.requests →
      k = userKey r := by
    intro k g hmem hreq
    obtain ⟨r0, rs, hf, hg⟩ := mem_groupRequests_spec reqs k g hmem
    rw [hg] at hreq
    have h1 : r ∈ reqs.filter (fun r' => userKey r' = k) := hf ▸ hreq
    have h2 := List.mem_filter.mp h1
    simpa using (of_decide_eq_true h2.2).symm
  refine ⟨exists_group_of_mem reqs r hr, ?_, ?_⟩
  · intro k g k' g' hmem hmem' hreq hreq'
    have hk : k = userKey r := hkey_of_mem k g hmem hreq
    have hk' : k' = userKey r := hkey_of_mem k' g' hmem' hreq'
    refine ⟨hk.trans hk'.symm, ?_⟩
    have hnd : ((groupRequests reqs).map Prod.fst).Nodup := by
      rw [keys_groupRequests]
      exact nodup_firstOccKeys reqs
    have h1 := lookupG_of_mem k g (groupRequests reqs) hmem hnd
    have h2 := lookupG_of_mem k' g' (groupRequests reqs) hmem' hnd
    rw [hk] at h1
    rw [hk'] at h2
    rw [h1] at h2
    exact Option.some.inj h2
  · intro hid
    have hkey : userKey r = "unknown" := by
      unfold userKey jsOrString
      rcases hid with h | h
      · rw [h]
      · rw [h]
        simp
    rw [← hkey]
    exact exists_group_of_mem reqs r hr

/-- C6 witness: the stray request, alone in the list, lands in exactly one
group. -/
theorem c6_no_request_dropped_witness :
    strayRequest ∈ [strayRequest] ∧
    ((∃ g, (userKey strayRequest, g) ∈ groupRequests [strayRequest] ∧
        strayRequest ∈ g.requests) ∧
      (∀ k g k' g', (k, g) ∈ groupRequests [strayRequest] →
        (k', g') ∈ groupRequests [strayRequest] →
        strayRequest ∈ g.requests → strayRequest ∈ g'.requests →
        k = k' ∧ g = g') ∧
      ((getUser strayRequest.userId)._id = none ∨
          (getUser strayRequest.userId)._id = some "" →
        ∃ g, ("unknown", g) ∈ groupRequests [strayRequest] ∧
          strayRequest ∈ g.requests)) :=
  ⟨by simp, c6_no_request_dropped [strayRequest] strayRequest (by simp)⟩

/-- The ceiling of the real division `m / n`, embedded in ℚ, equals the
rounded-up natural division `(m + n - 1) / n`. -/
lemma ceil_ratCast_div (m n : Nat) (hn : 0 < n) :
    Nat.ceil ((m : ℚ) / (n : ℚ)) = (m + n - 1) / n := by
  rcases Nat.eq_zero_or_pos m with hm | hm
  · subst hm
    have h0 : (n - 1) / n = 0 := Nat.div_eq_of_lt (by omega)
    simp [h0]
  · have hnq : (0 : ℚ) < (n : ℚ) := by exact_mod_cast hn
    have h1 : (m + n - 1) / n * n ≤ m + n - 1 := Nat.div_mul_le_self _ _
    have h2 : m + n - 1 < ((m + n - 1) / n + 1) * n :=
      (Nat.div_lt_iff_lt_mul hn).mp (Nat.lt_succ_self ((m + n - 1) / n))
    set q := (m + n - 1) / n with hq
    have hq1 : 1 ≤ q := by
      rw [hq, Nat.one_le_div_iff hn]
      omega
    have h3 : m ≤ q * n ∧ (q - 1) * n < m := by
      rw [Nat.add_mul, one_mul] at h2
      rw [Nat.sub_mul, one_mul]
      generalize q * n = t at h1 h2 ⊢
      omega
    rw [Nat.ceil_eq_iff (by omega)]
    constructor
    · rw [lt_div_iff₀ hnq]
      exact_mod_cast h3.2
    · rw [div_le_iff₀ hnq]
      exact_mod_cast h3.1

/-- C3: pagination ranges over groups: the page total is the ceiling of
group count over page size (zero for an empty list), the 1-indexed page `p`
shows exactly the groups at indices from `(p-1)*pageSize` up to
`p*pageSize` exclusive, and with page size 10 and 25 groups there are 3
pages of which page 3 holds exactly 5 groups. -/
theorem c3_pagination (groups : List GroupedRequests) (p ps i : Nat)
    (hps : 0 < ps) :
    totalPage groups.length ps = (groups.length + ps - 1) / ps ∧
    totalPage 0 ps = 0 ∧
    (groupsToDisplay groups p ps)[i]? =
      (if i < ps then groups[(p - 1) * ps + i]? else none) ∧
    totalPage (List.replicate 25 sampleGroup).length 10 = 3 ∧
    (groupsToDisplay (List.replicate 25 sampleGroup) 3 10).length = 5 := by
  refine ⟨ceil_ratCast_div _ _ hps, ?_, ?_, ?_, ?_⟩
  · simp [totalPage]
  · by_cases hi : i < ps
    · rw [if_pos hi]
      rw [groupsToDisplay, List.getElem?_take_of_lt hi, List.getElem?_drop]
    · rw [if_neg hi]
      apply List.getElem?_eq_none
      have h1 : (groupsToDisplay groups p ps).length ≤ ps := by
        simp only [groupsToDisplay]
        exact List.length_take_le _ _
      omega
  · rw [List.length_replicate, totalPage, ceil_ratCast_div 25 10 (by norm_num)]
  · simp [groupsToDisplay]

/-- C3 witness: the pagination facts at a concrete instantiation. -/
theorem c3_pagination_witness :
    0 < 10 ∧
    (totalPage ([] : List GroupedRequests).length 10 =
        (([] : List GroupedRequests).length + 10 - 1) / 10 ∧
      totalPage 0 10 = 0 ∧
      (groupsToDisplay [] 1 10)[0]? =
        (if 0 < 10 then ([] : List GroupedRequests)[(1 - 1) * 10 + 0]? else none) ∧
      totalPage (List.replicate 25 sampleGroup).length 10 = 3 ∧
      (groupsToDisplay (List.replicate 25 sampleGroup) 3 10).length = 5) :=
  ⟨by decide, c3_pagination [] 1 10 0 (by decide)⟩

/-- C5: each tab's badge count is the number of individual requests of the
full unfiltered list satisfying that tab's filter condition — equal to the
length of the status-filtered list — independently of the current page. -/
theorem c5_tab_counts (_page : Nat) (tab : TabStatus) (allRequests : List Request) :
    getTabCount tab allRequests =
      List.countP (fun r => filterPred tab r) allRequests ∧
    getTabCount tab allRequests = (filteredRequests tab allRequests).length := by
  cases tab <;> exact ⟨by rw [List.countP_eq_length_filter]; rfl, rfl⟩

/-- C7: both handlers reset the active service category's page number to 1. -/
theorem c7_page_reset (s : PageState) (tab : ServiceTab) (status : TabStatus) :
    currentPage (handleServiceTabChange s tab) = 1 ∧
    currentPage (handleStatusTabChange s status) = 1 := by
  constructor
  · cases tab <;> simp [handleServiceTabChange, currentPage]
  · cases h : s.activeServiceTab <;>
      simp [handleStatusTabChange, currentPage, h]

/-- C8: the delete button is rendered exactly for accepted or declined
requests — never for a pending one — and the delete mutation is dispatched
only when the confirmation dialog was confirmed. -/
theorem c8_delete_guard :
    (∀ st : String, RowAction.delete ∈ actionsFor st ↔
      st = ServiceStatus.Accept ∨ st = ServiceStatus.Decline) ∧
    RowAction.delete ∉ actionsFor ServiceStatus.Pending ∧
    (∀ (id : String) (res : SwalResult),
      handleDelete id res = DeleteOutcome.dispatched id ↔
        res.isConfirmed = true) := by
  refine ⟨?_, by decide, ?_⟩
  · intro st
    by_cases hp : st = ServiceStatus.Pending
    · subst hp
      decide
    · by_cases ha : st = ServiceStatus.Accept
      · subst ha
        decide
      · by_cases hd : st = ServiceStatus.Decline
        · subst hd
          decide
        · simp [actionsFor, hp, ha, hd]
  · intro id res
    cases hres : res.isConfirmed <;> simp [handleDelete, hres]

/-- C9: a page whose start index is at or past the end of the group list
displays the empty list without error, so the view shows the "no requests
found" empty state. -/
theorem c9_stale_page_empty (groups : List GroupedRequests) (page limit : Nat)
    (h : groups.length ≤ (page - 1) * limit) :
    groupsToDisplay groups page limit = [] ∧
    renderState false false (groupsToDisplay groups page limit) =
      ViewState.empty := by
  have hdrop : groups.drop ((page - 1) * limit) = [] :=
    List.drop_eq_nil_of_le h
  constructor
  · simp [groupsToDisplay, hdrop]
  · simp [renderState, groupsToDisplay, hdrop]

/-- C9 witness: page 2 of a single-group list with page size 1. -/
theorem c9_stale_page_empty_witness :
    groupsToDisplay [sampleGroup] 2 1 = [] ∧
    renderState false false (groupsToDisplay [sampleGroup] 2 1) =
      ViewState.empty :=
  c9_stale_page_empty [sampleGroup] 2 1 (by decide)

/-- Tab counts are the `countP` of the tab's filter condition. -/
lemma getTabCount_eq_countP (tab : TabStatus) (reqs : List Request) :
    getTabCount tab reqs = List.countP (fun r => filterPred tab r) reqs := by
  cases tab <;> simp [getTabCount, filterPred, List.countP_eq_length_filter]

/-- A single request contributes at most one to the four tab counts. -/
lemma tabCountSum_le_length (reqs : List Request) :
    tabCountSum reqs ≤ reqs.length := by
  induction reqs with
  | nil => simp [tabCountSum, getTabCount]
  | cons a l ih =>
      simp only [tabCountSum, getTabCount_eq_countP, List.countP_cons] at ih ⊢
      have ePA : ServiceStatus.Pending ≠ ServiceStatus.Accept := by decide
      have ePD : ServiceStatus.Pending ≠ ServiceStatus.Decline := by decide
      have eAP : ServiceStatus.Accept ≠ ServiceStatus.Pending := by decide
      have eAD : ServiceStatus.Accept ≠ ServiceStatus.Decline := by decide
      have eDP : ServiceStatus.Decline ≠ ServiceStatus.Pending := by decide
      have eDA : ServiceStatus.Decline ≠ ServiceStatus.Accept := by decide
      have hone : (if filterPred TabStatus.Pending a then 1 else 0) +
          (if filterPred TabStatus.Accept a then 1 else 0) +
          (if filterPred TabStatus.Decline a then 1 else 0) +
          (if filterPred TabStatus.Done a then 1 else 0) ≤ 1 := by
        by_cases hp : a.status = ServiceStatus.Pending
        · simp [filterPred, hp, ePA, ePD]
        · by_cases ha : a.status = ServiceStatus.Accept
          · by_cases hdel : a.deliveryStatus = some DeliveryStatus.Done
            · simp [filterPred, hp, ha, eAP, eAD, hdel]
            · simp [filterPred, hp, ha, eAP, eAD, hdel]
          · by_cases hd : a.status = ServiceStatus.Decline
            · simp [filterPred, hp, ha, hd, eDP, eDA]
            · simp [filterPred, hp, ha, hd]
      simp only [List.length_cons]
      omega

/-- C10: a request whose approval status is none of pending, accept, or
decline satisfies no tab's filter condition, adds nothing to any tab's
badge count, and makes the four badge counts sum to strictly less than the
number of requests. -/
theorem c10_unknown_status_invisible (r : Request) (reqs : List Request)
    (tab : TabStatus)
    (h1 : r.status ≠ ServiceStatus.Pending)
    (h2 : r.status ≠ ServiceStatus.Accept)
    (h3 : r.status ≠ ServiceStatus.Decline) :
    filterPred tab r = false ∧
    getTabCount tab (r :: reqs) = getTabCount tab reqs ∧
    tabCountSum (r :: reqs) < (r :: reqs).length := by
  have hall : ∀ t, filterPred t r = false := by
    intro t
    cases t <;> simp [filterPred, h1, h2, h3]
  refine ⟨hall tab, ?_, ?_⟩
  · rw [getTabCount_eq_countP, getTabCount_eq_countP, List.countP_cons, hall tab]
    simp
  · have hsum : tabCountSum (r :: reqs) = tabCountSum reqs := by
      simp only [tabCountSum, getTabCount_eq_countP, List.countP_cons]
      simp [hall]
    rw [hsum]
    have := tabCountSum_le_length reqs
    simp only [List.length_cons]
    omega

/-- C10 witness: the stray "cancelled" request is invisible. -/
theorem c10_unknown_status_invisible_witness :
    strayRequest.status ≠ ServiceStatus.Pending ∧
    (filterPred TabStatus.Pending strayRequest = false ∧
      getTabCount TabStatus.Pending [strayRequest] = getTabCount TabStatus.Pending [] ∧
      tabCountSum [strayRequest] < [strayRequest].length) :=
  ⟨by decide,
    c10_unknown_status_invisible strayRequest [] TabStatus.Pending
      (by decide) (by decide) (by decide)⟩

end HerPill
